import Mathlib

set_option maxRecDepth 100000

/-!
Shallow embedding of `llsd_modern.hpp` (namespace `llsd_modern`), a header-only
C++17 LLSD codec: a tagged `Value` type (`std::variant`), a binary wire codec
(`parse_binary` / `format_binary`), and a JSON codec (`detail::to_json` /
`detail::from_json`) with heuristic type recovery and a base64 helper
(`detail::from_base64`).

Modelling conventions:
* Bytes and byte streams are `Nat` / `List Nat` (always < 256 when produced).
* `std::int32_t` is an `Int` (two's-complement wrap made explicit via `% 2^32`).
* `double` is its IEEE-754 bit pattern, a `Nat` below `2^64`.  The only place
  the code computes with doubles (rather than moving their bytes around) is the
  Date codec, where `std::chrono` converts integer clock ticks to double
  seconds and back; that conversion is modelled exactly with rational
  arithmetic and round-to-nearest-even (see `ratToBits`).
* `std::chrono::system_clock::time_point` is its tick count, an `Int`,
  at nanosecond resolution (libstdc++'s `system_clock::duration`).
* Fallible code (C++ `throw`) returns `Except String`.
* `istream` consumption is explicit: parsers return the unread remainder.
-/

namespace LLSDModern

/-! ## Byte-level helpers: big/little-endian fields

Model of `detail::write_i32_be` / `detail::read_i32_be` and the byte loops in
`detail::write_double_be` / `write_double_le` / `read_double_be` /
`read_double_le`.  A `double`'s 64-bit pattern is moved to and from bytes
without interpretation, so those four helpers act on the bit pattern. -/

/-- The four big-endian bytes emitted by `detail::write_i32_be` for an
`int32_t` value `n` (two's complement; shifts-and-mask on the C++ side equal
base-256 digits of `n mod 2^32` here). -/
def write_i32_be (n : Int) : List Nat :=
  let u := (n % 2^32).toNat
  [u / 2^24 % 256, u / 2^16 % 256, u / 2^8 % 256, u % 256]

/-- The `int32_t` denoted by four big-endian bytes, as read by
`detail::read_i32_be` (the C++ shift-or of the four bytes, sign included). -/
def i32FromBytes (b0 b1 b2 b3 : Nat) : Int :=
  let u : Nat := b0 * 2^24 + b1 * 2^16 + b2 * 2^8 + b3
  if u < 2^31 then (u : Int) else (u : Int) - 2^32

/-- The eight bytes emitted by `detail::write_double_be` for bit pattern `x`
(most significant byte first). -/
def write_double_be (x : Nat) : List Nat :=
  [x / 2^56 % 256, x / 2^48 % 256, x / 2^40 % 256, x / 2^32 % 256,
   x / 2^24 % 256, x / 2^16 % 256, x / 2^8 % 256, x % 256]

/-- The eight bytes emitted by `detail::write_double_le` for bit pattern `x`
(least significant byte first). -/
def write_double_le (x : Nat) : List Nat :=
  [x % 256, x / 2^8 % 256, x / 2^16 % 256, x / 2^24 % 256,
   x / 2^32 % 256, x / 2^40 % 256, x / 2^48 % 256, x / 2^56 % 256]

/-- Bit pattern reassembled from eight bytes, most significant first (the
fold `val = (val << 8) | byte` of `detail::read_double_be`; `read_double_le`
performs the same fold over the bytes in reverse order). -/
def bitsFromBytesBE (b : List Nat) : Nat :=
  b.foldl (fun acc c => acc * 256 + c) 0

/-! ## Exact IEEE-754 binary64 model

`parse_binary` / `_format_binary_recurse` treat a Date as double seconds on
the wire but the `Value` stores `system_clock::time_point` ticks, so the codec
performs real floating-point conversions:
* format: `duration<double>(tp.time_since_epoch()).count()`
  = `double(ticks) / double(10^9)`, each step rounded to nearest-even;
* parse: `duration_cast<system_clock::duration>(duration<double>(d))`
  = `int64(d * double(10^9))`, the product rounded to nearest-even and the
  cast truncating toward zero.
These are modelled exactly: a finite double is the rational `num/den`, and
`ratToBits` rounds an arbitrary rational to the nearest representable
binary64, ties to even. -/

/-- Round the nonnegative rational `n / d` to the nearest integer, ties to
even (IEEE-754 default rounding). -/
def roundNearestEven (n d : Nat) : Nat :=
  let q := n / d
  let r := n % d
  if 2 * r < d then q
  else if d < 2 * r then q + 1
  else if q % 2 = 0 then q else q + 1

/-- Binary-exponent search: scales `n/d` by powers of two until it lands in
`[1, 2)`, returning the exponent `e` with `2^e ≤ n/d < 2^(e+1)`.  Fuel-bounded
so the definition is structural; 2200 steps cover the whole double range. -/
def findExpAux : Nat → Nat → Nat → Int → Int
  | 0, _, _, e => e
  | fuel + 1, n, d, e =>
    if n < d then findExpAux fuel (2 * n) d (e - 1)
    else if 2 * d ≤ n then findExpAux fuel n (2 * d) (e + 1)
    else e

def findExp (n d : Nat) : Int := findExpAux 2200 n d 0

/-- Bit pattern of the binary64 nearest to the rational `num / den`
(`den ≠ 0`), ties to even; overflow gives infinity, tiny values take the
subnormal path.  This is the rounding every C++ double operation applies to
its exact result. -/
def ratToBits (num : Int) (den : Nat) : Nat :=
  if num = 0 then 0
  else
    let s : Nat := if num < 0 then 2^63 else 0
    let n := num.natAbs
    let e := findExp n den
    if e < -1022 then
      s + roundNearestEven (n * 2^1074) den
    else if 1023 < e then
      s + 2047 * 2^52
    else
      let m :=
        if e ≤ 52 then roundNearestEven (n * 2^((52 - e).toNat)) den
        else roundNearestEven n (den * 2^((e - 52).toNat))
      if m = 2^53 then
        if e = 1023 then s + 2047 * 2^52
        else s + ((e + 1 + 1023).toNat) * 2^52
      else
        s + ((e + 1023).toNat) * 2^52 + (m - 2^52)

/-- Exact rational value `(num, den)` of the double with bit pattern `b`
(finite interpretation; the codec never produces non-finite dates). -/
def bitsToRat (b : Nat) : Int × Nat :=
  let eF := b / 2^52 % 2^11
  let m := b % 2^52
  let nd : Nat × Nat :=
    if eF = 0 then (m, 2^1074)
    else if eF < 1075 then (2^52 + m, 2^(1075 - eF))
    else ((2^52 + m) * 2^(eF - 1075), 1)
  (if b / 2^63 = 1 then -(nd.1 : Int) else (nd.1 : Int), nd.2)

/-- Bit pattern written for a Date whose `time_point` holds `t` nanosecond
ticks: `double(t)` then division by `double(10^9)`, each rounded to
nearest-even — the `duration<double>` conversion in
`_format_binary_recurse`'s `LLDate` branch. -/
def ticksToDblBits (t : Int) : Nat :=
  let b1 := ratToBits t 1
  let r := bitsToRat b1
  ratToBits r.1 (r.2 * 10^9)

/-- Tick count recovered by `parse_binary`'s `'d'` branch from a double bit
pattern: multiply by `double(10^9)` (rounded to nearest-even), then the
`duration_cast` truncates toward zero. -/
def dblBitsToTicks (b : Nat) : Int :=
  let r := bitsToRat b
  let b2 := ratToBits (r.1 * 10^9) r.2
  let r2 := bitsToRat b2
  Int.tdiv r2.1 (r2.2 : Int)

/-! ## The Value model

`llsd_modern::Value` is a `std::variant` over `Undef`, `bool`, `int32_t`,
`double`, `std::string`, `LLUUID`, `LLDate`, `URI`, `Binary`,
`unique_ptr<Array>` and `unique_ptr<Map>`.  Strings (and URI payloads, UUID
bytes, Binary payloads, map keys) are byte sequences `List Nat`.  The two
container variants hold `Option`s: `none` is the null `unique_ptr` (the
moved-from state), `some` the owned container.  `Array` / `Map` are modelled
as bespoke list types so that all definitions are plain structural recursion.
A `Map` (`std::map<std::string, Value>`) is an association list that is
key-sorted whenever it arose from `std::map` operations. -/

mutual
inductive Value where
  | undef
  | boolV (b : Bool)
  | intV (n : Int)
  | realV (bits : Nat)
  | strV (s : List Nat)
  | uuidV (bytes : List Nat)
  | dateV (ticks : Int)
  | uriV (s : List Nat)
  | binV (b : List Nat)
  | arrV (elems : Option VList)
  | mapV (entries : Option EList)
inductive VList where
  | nil
  | cons (v : Value) (t : VList)
inductive EList where
  | nil
  | cons (k : List Nat) (v : Value) (t : EList)
end

/-- Length of an `Array`'s element list (`std::vector::size`). -/
def VList.length : VList → Nat
  | .nil => 0
  | .cons _ t => t.length + 1

/-- Length of a `Map`'s entry list (`std::map::size`). -/
def EList.length : EList → Nat
  | .nil => 0
  | .cons _ _ t => t.length + 1

/-- Byte-wise `operator<` of `std::string` (`char_traits<char>` compares
unsigned bytes; a proper prefix is smaller). -/
def lexLt : List Nat → List Nat → Bool
  | [], [] => false
  | [], _ :: _ => true
  | _ :: _, [] => false
  | a :: as, b :: bs => if a < b then true else if b < a then false else lexLt as bs

/-- `(*map)[key] = v` on a key-sorted association list: insert in order, or
overwrite the existing entry (`std::map::operator[]` followed by
assignment). -/
def mapInsert (k : List Nat) (v : Value) : EList → EList
  | .nil => .cons k v .nil
  | .cons k' v' t =>
    if lexLt k k' then .cons k v (.cons k' v' t)
    else if k = k' then .cons k v t
    else .cons k' v' (mapInsert k v t)

/-- Lookup in the association list (`std::map::find` / `count`). -/
def mapFind (k : List Nat) : EList → Option Value
  | .nil => none
  | .cons k' v t => if k = k' then some v else mapFind k t

/-! ## Binary formatting: `format_binary` / `detail::_format_binary_recurse` -/

/-- `detail::write_string`: 4-byte big-endian length then the raw bytes.
The C++ `size_t → int32_t` narrowing of the length is the `% 2^32` inside
`write_i32_be`. -/
def write_string (s : List Nat) : List Nat :=
  write_i32_be (s.length : Int) ++ s

mutual
/-- `detail::_format_binary_recurse`: emit one tag byte then the payload.
Null containers (`unique_ptr` empty after a move) emit a zero count. -/
def format_binary : Value → List Nat
  | .undef => [33]
  | .boolV b => [if b then 49 else 48]
  | .intV n => 105 :: write_i32_be n
  | .realV x => 114 :: write_double_be x
  | .strV s => 115 :: write_string s
  | .uuidV u => 117 :: u
  | .dateV t => 100 :: write_double_le (ticksToDblBits t)
  | .uriV s => 108 :: write_string s
  | .binV b => 98 :: write_i32_be (b.length : Int) ++ b
  | .arrV none => 91 :: write_i32_be 0 ++ [93]
  | .arrV (some l) => 91 :: write_i32_be (l.length : Int) ++ formatVList l ++ [93]
  | .mapV none => 123 :: write_i32_be 0 ++ [125]
  | .mapV (some m) => 123 :: write_i32_be (m.length : Int) ++ formatEList m ++ [125]
def formatVList : VList → List Nat
  | .nil => []
  | .cons v t => format_binary v ++ formatVList t
def formatEList : EList → List Nat
  | .nil => []
  | .cons k v t => 107 :: write_string k ++ format_binary v ++ formatEList t
end

/-! ## Binary parsing: `parse_binary`

The C++ parser is plain recursive descent over an `istream`.  It is modelled
as one fuel-indexed function over the byte list; `.one` parses a value
(`parse_binary` proper), `.elems n` the loop body of the array case, and
`.entries n acc` the loop body of the map case with the map built so far.
Reading a tag at end of stream is modelled as failure: in the C++ the failed
`istream::get` leaves the previous tag character in place, which never equals
the character the parser then requires, so every such path throws. -/

/-- `detail::read_bytes`: take exactly `n` bytes or fail. -/
def read_bytes (n : Nat) (s : List Nat) : Except String (List Nat × List Nat) :=
  if s.length < n then .error "Unexpected end of stream"
  else .ok (s.take n, s.drop n)

/-- `detail::read_i32_be`. -/
def read_i32_be (s : List Nat) : Except String (Int × List Nat) :=
  match s with
  | b0 :: b1 :: b2 :: b3 :: r => .ok (i32FromBytes b0 b1 b2 b3, r)
  | _ => .error "Unexpected end of stream"

/-- `detail::read_string`: signed 4-byte length (negative rejected), then the
raw bytes. -/
def read_string (s : List Nat) : Except String (List Nat × List Nat) := do
  let (size, s) ← read_i32_be s
  if size < 0 then throw "Invalid string size"
  else
    match read_bytes size.toNat s with
    | .ok r => pure r
    | .error _ => throw "Unexpected end of stream while reading string"

/-- What a recursive step of the parser is asked to produce. -/
inductive PMode where
  | one
  | elems (n : Nat)
  | entries (n : Nat) (acc : EList)

/-- Result of a recursive step. -/
inductive PRes where
  | val (v : Value)
  | list (l : VList)
  | ents (m : EList)

/-- The recursive core of `parse_binary`.  The `.one` arm is the C++ `switch`
on the tag byte; `.elems` / `.entries` are the container loops.  The map loop
checks the `'k'` tag, reads the key, parses the value and stores it with
`(*map)[key] = …`.  A negative array count throws because
`std::vector::reserve` of the huge converted `size_t` exceeds `max_size()`;
a negative map count merely skips the loop (`for (int i = 0; i < size; …)`).
Fuel only bounds recursion depth of the model; any fuel above the input's
nesting structure gives the C++ behaviour. -/
def parseStep : Nat → PMode → List Nat → Except String (PRes × List Nat)
  | 0, _, _ => .error "out of fuel"
  | _ + 1, .one, [] => .error "Unexpected end of stream"
  | fuel + 1, .one, c :: s =>
      if c = 123 then do
        let (size, s) ← read_i32_be s
        let (res, s) ← parseStep fuel (.entries size.toNat .nil) s
        match res, s with
        | .ents m, c :: s =>
          if c = 125 then pure (.val (.mapV (some m)), s)
          else throw "Expected closing brace for map"
        | _, _ => throw "Expected closing brace for map"
      else if c = 91 then do
        let (size, s) ← read_i32_be s
        if size < 0 then throw "vector reserve length_error"
        else do
          let (res, s) ← parseStep fuel (.elems size.toNat) s
          match res, s with
          | .list l, c :: s =>
            if c = 93 then pure (.val (.arrV (some l)), s)
            else throw "Expected closing bracket for array"
          | _, _ => throw "Expected closing bracket for array"
      else if c = 33 then pure (.val .undef, s)
      else if c = 48 then pure (.val (.boolV false), s)
      else if c = 49 then pure (.val (.boolV true), s)
      else if c = 105 then do
        let (n, s) ← read_i32_be s
        pure (.val (.intV n), s)
      else if c = 114 then do
        let (bytes, s) ← read_bytes 8 s
        pure (.val (.realV (bitsFromBytesBE bytes)), s)
      else if c = 117 then do
        let (bytes, s) ← read_bytes 16 s
        pure (.val (.uuidV bytes), s)
      else if c = 115 then do
        let (str, s) ← read_string s
        pure (.val (.strV str), s)
      else if c = 108 then do
        let (str, s) ← read_string s
        pure (.val (.uriV str), s)
      else if c = 100 then do
        let (bytes, s) ← read_bytes 8 s
        pure (.val (.dateV (dblBitsToTicks (bitsFromBytesBE bytes.reverse))), s)
      else if c = 98 then do
        let (size, s) ← read_i32_be s
        if size < 0 then throw "Invalid binary size"
        else do
          let (bytes, s) ← read_bytes size.toNat s
          pure (.val (.binV bytes), s)
      else throw "Invalid binary token"
  | _ + 1, .elems 0, s => .ok (.list .nil, s)
  | fuel + 1, .elems (m + 1), s => do
      let (res, s) ← parseStep fuel .one s
      match res with
      | .val v => do
        let (res, s) ← parseStep fuel (.elems m) s
        match res with
        | .list l => pure (.list (.cons v l), s)
        | _ => throw "impossible"
      | _ => throw "impossible"
  | _ + 1, .entries 0 acc, s => .ok (.ents acc, s)
  | _ + 1, .entries (_ + 1) _, [] => throw "Expected k for map key"
  | fuel + 1, .entries (m + 1) acc, c :: s =>
      if c = 107 then do
        let (key, s) ← read_string s
        let (res, s) ← parseStep fuel .one s
        match res with
        | .val v => parseStep fuel (.entries m (mapInsert key v acc)) s
        | _ => throw "impossible"
      else throw "Expected k for map key"

/-- `parse_binary`: parse one value from the stream, returning it and the
unconsumed remainder. -/
def parse_binary (fuel : Nat) (s : List Nat) : Except String (Value × List Nat) :=
  match parseStep fuel .one s with
  | .ok (.val v, r) => .ok (v, r)
  | .ok (_, _) => .error "impossible"
  | .error e => .error e

/-! ## Reachability invariants of C++ `Value`s

`wfValue v` says the model value corresponds to a C++ `Value` in its normal
state: `int32_t` in range, `double` patterns 64-bit, `LLUUID` 16 bytes,
containers owned (non-null) with `size_t` sizes below `2^31` (so that the
`size_t → int32_t` length narrowing in the formatter is lossless), and map
entry lists strictly key-sorted with unique keys, which is the `std::map`
iteration invariant.  The moved-from (null) container states are excluded:
claim C7 treats those separately.  `datesOk*` singles out Date values whose
tick count survives the ticks → double seconds → ticks conversion; it is
*not* implied by reachability (any tick count is a legal `time_point`). -/

/-- `k` sorts strictly before the first key of `m` (vacuous for empty). -/
def eLtHead (k : List Nat) : EList → Bool
  | .nil => true
  | .cons k' _ _ => lexLt k k'

/-- Entry list strictly sorted by key (`std::map` iteration order). -/
def sortedE : EList → Bool
  | .nil => true
  | .cons k _ t => eLtHead k t && sortedE t

mutual
def wfValue : Value → Bool
  | .undef => true
  | .boolV _ => true
  | .intV n => decide (-(2^31) ≤ n) && decide (n < 2^31)
  | .realV x => decide (x < 2^64)
  | .strV s => decide (s.length < 2^31)
  | .uuidV u => decide (u.length = 16)
  | .dateV t => decide (ticksToDblBits t < 2^64)
  | .uriV s => decide (s.length < 2^31)
  | .binV b => decide (b.length < 2^31)
  | .arrV none => false
  | .arrV (some l) => decide (l.length < 2^31) && wfVList l
  | .mapV none => false
  | .mapV (some m) => decide (m.length < 2^31) && sortedE m && wfEntries m
def wfVList : VList → Bool
  | .nil => true
  | .cons v t => wfValue v && wfVList t
/-- Keys bounded and values well-formed; sortedness is kept separate so this
also describes raw wire entry sequences (which may repeat keys). -/
def wfEntries : EList → Bool
  | .nil => true
  | .cons k v t => decide (k.length < 2^31) && wfValue v && wfEntries t
end

mutual
def datesOkV : Value → Bool
  | .dateV t => decide (dblBitsToTicks (ticksToDblBits t) = t)
  | .arrV (some l) => datesOkL l
  | .mapV (some m) => datesOkE m
  | _ => true
def datesOkL : VList → Bool
  | .nil => true
  | .cons v t => datesOkV v && datesOkL t
def datesOkE : EList → Bool
  | .nil => true
  | .cons _ v t => datesOkV v && datesOkE t
end

/-- Left fold of `(*map)[kᵢ] = vᵢ` over an entry sequence: exactly what the
map loop of `parse_binary` builds from the wire entries in stream order. -/
def insertAll (acc : EList) : EList → EList
  | .nil => acc
  | .cons k v t => insertAll (mapInsert k v acc) t

/-- The keys of an entry list, in order. -/
def keysE : EList → List (List Nat)
  | .nil => []
  | .cons k _ t => k :: keysE t

/-- Value of the last entry for key `q` in stream order, if any. -/
def lastVal (q : List Nat) : EList → Option Value
  | .nil => none
  | .cons k v t =>
    match lastVal q t with
    | some w => some w
    | none => if q = k then some v else none

/-- Concatenation of entry lists (proof bookkeeping for the fold of
`mapInsert`). -/
def eAppend : EList → EList → EList
  | .nil, m => m
  | .cons k v t, m => .cons k v (eAppend t m)

/-- Every key of the entry list sorts strictly before `q`. -/
def eAllLt : EList → List Nat → Bool
  | .nil, _ => true
  | .cons k _ t, q => lexLt k q && eAllLt t q

/-! ## Base64 codec (`detail::from_base64` and the encoder in
`detail::to_json`'s `Binary` branch) -/

/-- Character at index `n` of the base64 alphabet
`A..Z a..z 0..9 + /` (ASCII code). -/
def b64char (n : Nat) : Nat :=
  if n < 26 then 65 + n
  else if n < 52 then 97 + (n - 26)
  else if n < 62 then 48 + (n - 52)
  else if n = 62 then 43
  else 47

/-- The decode table `T` of `detail::from_base64`: alphabet index of an ASCII
code, `none` for non-alphabet characters (`T[c] == -1`). -/
def b64Index (c : Nat) : Option Nat :=
  if 65 ≤ c ∧ c ≤ 90 then some (c - 65)
  else if 97 ≤ c ∧ c ≤ 122 then some (26 + (c - 97))
  else if 48 ≤ c ∧ c ≤ 57 then some (52 + (c - 48))
  else if c = 43 then some 62
  else if c = 47 then some 63
  else none

/-- The accumulator loop of `detail::from_base64`: `val` collects 6-bit
groups, `valb` counts bits pending minus 8; a byte `(val >> valb) & 0xFF` is
emitted whenever `valb` reaches 0.  `val` is unbounded here where the C++
`int` wraps, but the emitted byte depends only on the low `valb + 8 ≤ 12`
bits, which wrapping preserves. -/
def fromB64Loop : List Nat → Nat → Int → List Nat
  | [], _, _ => []
  | c :: rest, val, valb =>
    if c = 61 then []
    else
      match b64Index c with
      | none => fromB64Loop rest val valb
      | some t =>
        let val' := val * 64 + t
        let valb' := valb + 6
        if 0 ≤ valb' then val' / 2 ^ valb'.toNat % 256 :: fromB64Loop rest val' (valb' - 8)
        else fromB64Loop rest val' valb'

/-- `detail::from_base64`. -/
def from_base64 (s : List Nat) : List Nat := fromB64Loop s 0 (-8)

/-- The base64 encoder inlined in `detail::to_json` (groups of three input
bytes, `=`-padded to four output characters). -/
def toBase64 : List Nat → List Nat
  | [] => []
  | [a] => [b64char (a / 4), b64char (a % 4 * 16), 61, 61]
  | [a, b] => [b64char (a / 4), b64char (a % 4 * 16 + b / 16), b64char (b % 16 * 4), 61]
  | a :: b :: c :: rest =>
    b64char (a / 4) :: b64char (a % 4 * 16 + b / 16) ::
    b64char (b % 16 * 4 + c / 64) :: b64char (c % 64) :: toBase64 rest

/-! ## Generic JSON tree

The spec treats the JSON text layer (nlohmann parse/dump) as an external
collaborator; the codec proper maps `Value` to and from this generic tree.
Numbers carry either an integer (`is_number_integer`) or a double bit
pattern (`is_number_float`); objects are key-sorted association lists,
matching nlohmann's `std::map` storage whose iteration order `dump`
follows. -/

mutual
inductive Json where
  | nullJ
  | boolJ (b : Bool)
  | intJ (n : Int)
  | numJ (bits : Nat)
  | strJ (s : List Nat)
  | arrJ (l : JList)
  | objJ (o : JObj)
inductive JList where
  | nil
  | cons (j : Json) (t : JList)
inductive JObj where
  | nil
  | cons (k : List Nat) (j : Json) (t : JObj)
end

/-- `obj[key] = j` on the sorted object representation (nlohmann objects are
`std::map`-backed: insert in key order or overwrite). -/
def objInsert (k : List Nat) (j : Json) : JObj → JObj
  | .nil => .cons k j .nil
  | .cons k' j' t =>
    if lexLt k k' then .cons k j (.cons k' j' t)
    else if k = k' then .cons k j t
    else .cons k' j' (objInsert k j t)

/-! ## Canonical string forms (`LLUUID::toString`, `LLDate::toString`) and
their inverses used by `detail::from_json`'s heuristic recovery -/

/-- Lowercase hex digit (ASCII). -/
def hexChar (n : Nat) : Nat := if n < 10 then 48 + n else 87 + n

/-- Two lowercase hex digits of a byte (`setw(2) << setfill('0') << hex`). -/
def hexByte (b : Nat) : List Nat := [hexChar (b / 16 % 16), hexChar (b % 16)]

/-- `LLUUID::toString`: 8-4-4-4-12 lowercase hyphenated hex of the 16 bytes.
Non-16-byte lists do not arise from C++ (an `LLUUID` is exactly 16 bytes). -/
def uuidToString (u : List Nat) : List Nat :=
  match u with
  | [a, b, c, d, e, f, g, h, i, j, k, l, m, n, o, p] =>
    hexByte a ++ hexByte b ++ hexByte c ++ hexByte d ++ [45] ++
    hexByte e ++ hexByte f ++ [45] ++ hexByte g ++ hexByte h ++ [45] ++
    hexByte i ++ hexByte j ++ [45] ++
    hexByte k ++ hexByte l ++ hexByte m ++ hexByte n ++ hexByte o ++ hexByte p
  | _ => []

/-- ASCII decimal digit test. -/
def isDigit (c : Nat) : Bool := 48 ≤ c && c ≤ 57

/-- Lowercase hex digit test (the character class `[0-9a-f]`). -/
def isHexLower (c : Nat) : Bool := (48 ≤ c && c ≤ 57) || (97 ≤ c && c ≤ 102)

/-- Numeric value of a lowercase hex digit. -/
def hexVal (c : Nat) : Nat := if c ≤ 57 then c - 48 else c - 87

/-- Last group of the UUID pattern: exactly twelve lowercase hex digits. -/
def uuidTail12 : List Nat → Bool
  | [e1, e2, e3, e4, e5, e6, e7, e8, e9, e10, e11, e12] =>
    isHexLower e1 && isHexLower e2 && isHexLower e3 && isHexLower e4 &&
    isHexLower e5 && isHexLower e6 && isHexLower e7 && isHexLower e8 &&
    isHexLower e9 && isHexLower e10 && isHexLower e11 && isHexLower e12
  | _ => false

/-- The regex `^[0-9a-f]{8}-[0-9a-f]{4}-[0-9a-f]{4}-[0-9a-f]{4}-[0-9a-f]{12}$`
of `detail::from_json`. -/
def uuidMatch : List Nat → Bool
  | a1 :: a2 :: a3 :: a4 :: a5 :: a6 :: a7 :: a8 :: 45 :: b1 :: b2 :: b3 :: b4 :: 45 ::
    c1 :: c2 :: c3 :: c4 :: 45 :: d1 :: d2 :: d3 :: d4 :: 45 :: rest =>
    isHexLower a1 && isHexLower a2 && isHexLower a3 && isHexLower a4 &&
    isHexLower a5 && isHexLower a6 && isHexLower a7 && isHexLower a8 &&
    isHexLower b1 && isHexLower b2 && isHexLower b3 && isHexLower b4 &&
    isHexLower c1 && isHexLower c2 && isHexLower c3 && isHexLower c4 &&
    isHexLower d1 && isHexLower d2 && isHexLower d3 && isHexLower d4 &&
    uuidTail12 rest
  | _ => false

/-- Byte values of twelve hex digits (last UUID group). -/
def uuidTailBytes : List Nat → List Nat
  | [e1, e2, e3, e4, e5, e6, e7, e8, e9, e10, e11, e12] =>
    [hexVal e1 * 16 + hexVal e2, hexVal e3 * 16 + hexVal e4,
     hexVal e5 * 16 + hexVal e6, hexVal e7 * 16 + hexVal e8,
     hexVal e9 * 16 + hexVal e10, hexVal e11 * 16 + hexVal e12]
  | _ => []

/-- The 16 bytes recovered from a UUID-shaped string: strip hyphens, then
`std::stoi(…, 16)` on consecutive pairs. -/
def uuidBytesOfString : List Nat → List Nat
  | a1 :: a2 :: a3 :: a4 :: a5 :: a6 :: a7 :: a8 :: _ :: b1 :: b2 :: b3 :: b4 :: _ ::
    c1 :: c2 :: c3 :: c4 :: _ :: d1 :: d2 :: d3 :: d4 :: _ :: rest =>
    [hexVal a1 * 16 + hexVal a2, hexVal a3 * 16 + hexVal a4,
     hexVal a5 * 16 + hexVal a6, hexVal a7 * 16 + hexVal a8,
     hexVal b1 * 16 + hexVal b2, hexVal b3 * 16 + hexVal b4,
     hexVal c1 * 16 + hexVal c2, hexVal c3 * 16 + hexVal c4,
     hexVal d1 * 16 + hexVal d2, hexVal d3 * 16 + hexVal d4] ++ uuidTailBytes rest
  | _ => []

/-- The regex `^\d{4}-\d{2}-\d{2}T\d{2}:\d{2}:\d{2}Z$`. -/
def dateMatch : List Nat → Bool
  | [y1, y2, y3, y4, 45, m1, m2, 45, d1, d2, 84,
     h1, h2, 58, i1, i2, 58, s1, s2, 90] =>
    isDigit y1 && isDigit y2 && isDigit y3 && isDigit y4 &&
    isDigit m1 && isDigit m2 && isDigit d1 && isDigit d2 &&
    isDigit h1 && isDigit h2 && isDigit i1 && isDigit i2 &&
    isDigit s1 && isDigit s2
  | _ => false

/-! ### Proleptic-Gregorian civil arithmetic

`detail::from_json` turns a matched date string into a `tm` via
`std::get_time` and then `timegm`; `LLDate::toString` goes back through
`gmtime` and `put_time`.  Both are modelled with the standard
days-from-civil / civil-from-days algorithms, which agree with glibc's
`timegm`/`gmtime` over their common domain.  `timegm` normalizes
out-of-range `tm` fields arithmetically (months beyond 11 roll the year,
day/hour/minute/second offsets are linear), which the formulas reproduce;
libstdc++'s `get_time` bails out on fields outside its per-directive ranges
(leaving a partly zeroed `tm`), so this model is faithful for strings whose
fields are within those ranges — the range-restricted theorems below state
exactly that boundary. -/

/-- Days since 1970-01-01 of civil date `y-m-d` (`m ∈ [1,12]`; `d` may be any
integer and shifts linearly). -/
def days_from_civil (y m d : Int) : Int :=
  let yAdj := if m ≤ 2 then y - 1 else y
  let era := Int.fdiv yAdj 400
  let yoe := yAdj - era * 400
  let doy := Int.fdiv (153 * (m + (if 2 < m then -3 else 9)) + 2) 5 + d - 1
  let doe := yoe * 365 + Int.fdiv yoe 4 - Int.fdiv yoe 100 + doy
  era * 146097 + doe - 719468

/-- Civil date `(y, m, d)` of a days-since-epoch count. -/
def civil_from_days (z : Int) : Int × Int × Int :=
  let z' := z + 719468
  let era := Int.fdiv z' 146097
  let doe := z' - era * 146097
  let yoe := Int.fdiv (doe - Int.fdiv doe 1460 + Int.fdiv doe 36524 - Int.fdiv doe 146096) 365
  let y := yoe + era * 400
  let doy := doe - (365 * yoe + Int.fdiv yoe 4 - Int.fdiv yoe 100)
  let mp := Int.fdiv (5 * doy + 2) 153
  let d := doy - Int.fdiv (153 * mp + 2) 5 + 1
  let m := mp + (if mp < 10 then 3 else -9)
  (if m ≤ 2 then y + 1 else y, m, d)

/-- `timegm` applied to the `tm` produced by `get_time`: seconds since epoch
of the UTC civil time, months normalized into the year (glibc semantics). -/
def timegm_model (yr mon1 mday hh mi ss : Int) : Int :=
  let mon0 := mon1 - 1
  let y := yr + Int.fdiv mon0 12
  let m := Int.emod mon0 12 + 1
  days_from_civil y m mday * 86400 + hh * 3600 + mi * 60 + ss

/-- Two-digit field value of a date string (`(c₁ - '0')*10 + (c₂ - '0')`). -/
def num2 (a b : Nat) : Int := ((a : Int) - 48) * 10 + ((b : Int) - 48)

/-- Tick count of the `LLDate` recovered from a date-shaped string:
`get_time` fields fed to `timegm`, then `from_time_t` scales seconds to
`system_clock` ticks. -/
def dateTicksOfString : List Nat → Int
  | [y1, y2, y3, y4, _, m1, m2, _, d1, d2, _,
     h1, h2, _, i1, i2, _, s1, s2, _] =>
    let yr := num2 y1 y2 * 100 + num2 y3 y4
    timegm_model yr (num2 m1 m2) (num2 d1 d2) (num2 h1 h2) (num2 i1 i2) (num2 s1 s2) * 10^9
  | _ => 0

/-- Zero-padded two-decimal-digit rendering of `n ∈ [0, 99]`. -/
def pad2 (n : Int) : List Nat := [48 + (n.toNat / 10 % 10), 48 + n.toNat % 10]

/-- Four-decimal-digit rendering of a year (exact for `[0, 9999]`, the range
relevant to round-tripped date strings). -/
def pad4 (n : Int) : List Nat :=
  [48 + (n.toNat / 1000 % 10), 48 + (n.toNat / 100 % 10),
   48 + (n.toNat / 10 % 10), 48 + n.toNat % 10]

/-- `LLDate::toString`: truncate ticks to whole seconds (`to_time_t`), break
into UTC civil time (`gmtime`), print `%Y-%m-%dT%H:%M:%SZ`. -/
def dateToString (t : Int) : List Nat :=
  let secs := Int.tdiv t (10^9)
  let days := Int.fdiv secs 86400
  let rem := secs - days * 86400
  let ymd := civil_from_days days
  pad4 ymd.1 ++ [45] ++ pad2 ymd.2.1 ++ [45] ++ pad2 ymd.2.2 ++ [84] ++
  pad2 (Int.fdiv rem 3600) ++ [58] ++ pad2 (Int.fdiv rem 60 % 60) ++ [58] ++
  pad2 (rem % 60) ++ [90]

/-! ## JSON codec: `detail::to_json` / `detail::from_json` -/

/-- ASCII bytes of the literal `"data:base64,"`. -/
def b64MarkBytes : List Nat := [100, 97, 116, 97, 58, 98, 97, 115, 101, 54, 52, 44]

/-- `s.rfind("data:base64,", 0) == 0`: the string starts with the mark. -/
def hasB64Mark : List Nat → Bool
  | 100 :: 97 :: 116 :: 97 :: 58 :: 98 :: 97 :: 115 :: 101 :: 54 :: 52 :: 44 :: _ => true
  | _ => false

/-- `j.get<std::int32_t>()`: two's-complement narrowing of the stored
integer. -/
def toInt32 (n : Int) : Int :=
  let u := n % 2^32
  if u < 2^31 then u else u - 2^32

mutual
/-- `detail::to_json`: `Value` to generic JSON tree.  Null containers emit
empty array/object; map entries are written through `obj[key] = …` in the
sorted iteration order of the `std::map`. -/
def to_json : Value → Json
  | .undef => .nullJ
  | .boolV b => .boolJ b
  | .intV n => .intJ n
  | .realV x => .numJ x
  | .strV s => .strJ s
  | .uuidV u => .strJ (uuidToString u)
  | .dateV t => .strJ (dateToString t)
  | .uriV s => .strJ s
  | .binV b => .strJ (b64MarkBytes ++ toBase64 b)
  | .arrV none => .arrJ .nil
  | .arrV (some l) => .arrJ (toJsonL l)
  | .mapV none => .objJ .nil
  | .mapV (some m) => .objJ (toJsonE m .nil)
def toJsonL : VList → JList
  | .nil => .nil
  | .cons v t => .cons (to_json v) (toJsonL t)
def toJsonE : EList → JObj → JObj
  | .nil, acc => acc
  | .cons k v t, acc => toJsonE t (objInsert k (to_json v) acc)
end

mutual
/-- `detail::from_json`: generic JSON tree to `Value`, with the heuristic
string recovery chain in source order: `data:base64,` mark, UUID pattern,
date pattern, then plain string.  Objects are rebuilt through
`(*map)[it.key()] = …`. -/
def from_json : Json → Value
  | .nullJ => .undef
  | .boolJ b => .boolV b
  | .intJ n => .intV (toInt32 n)
  | .numJ x => .realV x
  | .strJ s =>
    if hasB64Mark s then .binV (from_base64 (s.drop 12))
    else if uuidMatch s then .uuidV (uuidBytesOfString s)
    else if dateMatch s then .dateV (dateTicksOfString s)
    else .strV s
  | .arrJ l => .arrV (some (fromJsonL l))
  | .objJ o => .mapV (some (fromJsonO o .nil))
def fromJsonL : JList → VList
  | .nil => .nil
  | .cons j t => .cons (from_json j) (fromJsonL t)
def fromJsonO : JObj → EList → EList
  | .nil, acc => acc
  | .cons k j t, acc => fromJsonO t (mapInsert k (from_json j) acc)
end

/-! ## Statement-level helpers -/

/-- ASCII bytes of a Lean string literal, for readable statements. -/
def strBytes (s : String) : List Nat := s.data.map Char.toNat

/-- The twelve tag bytes accepted by `parse_binary`'s `switch`. -/
def validTag (c : Nat) : Bool :=
  c = 123 || c = 91 || c = 33 || c = 48 || c = 49 || c = 105 ||
  c = 114 || c = 117 || c = 115 || c = 108 || c = 100 || c = 98

/-- Active-variant test: the value is a `URI`. -/
def isUriV : Value → Bool
  | .uriV _ => true
  | _ => false

/-- Active-variant test: the value is a `Date`. -/
def isDateV : Value → Bool
  | .dateV _ => true
  | _ => false

/-- The `test_json_output` map of the repository's test suite, built by the
same insertion sequence (`(*map)["undef"] = …`, …) used there; it is the
concrete Value of claim C9. -/
def jsonOutputMap : EList :=
  mapInsert (strBytes "array")
    (.arrV (some (.cons (.intV 1) (.cons (.strV (strBytes "two")) .nil))))
    (mapInsert (strBytes "binary") (.binV [1, 2, 3])
      (mapInsert (strBytes "uri") (.uriV (strBytes "http://example.com"))
        (mapInsert (strBytes "string") (.strV (strBytes "hello"))
          (mapInsert (strBytes "real") (.realV 0x40091EB851EB851F)
            (mapInsert (strBytes "integer") (.intV 123)
              (mapInsert (strBytes "false") (.boolV false)
                (mapInsert (strBytes "true") (.boolV true)
                  (mapInsert (strBytes "undef") .undef .nil))))))))

/-- Object keys of a JSON tree's top level, in stored (emission) order. -/
def objKeys : JObj → List (List Nat)
  | .nil => []
  | .cons k _ t => k :: objKeys t

/-- Strict byte-lexicographic sortedness of a key sequence. -/
def keysSorted : List (List Nat) → Bool
  | [] => true
  | [_] => true
  | a :: b :: t => lexLt a b && keysSorted (b :: t)

/-- Number of alphabet characters `detail::from_base64` consumes: everything
up to the first `=`, non-alphabet bytes skipped. -/
def countB64 : List Nat → Nat
  | [] => 0
  | c :: t =>
    if c = 61 then 0
    else if (b64Index c).isSome then countB64 t + 1
    else countB64 t

/-- Characters that influence `detail::from_base64`: alphabet members and
the `=` terminator; everything else is skipped by the loop. -/
def b64Kept (c : Nat) : Bool := (b64Index c).isSome || c == 61

/-- Fields of a date-shaped string lie in the per-directive ranges that
libstdc++'s `get_time` accepts outright (`%m` 1–12, `%d` 1–31, `%H` ≤ 23,
`%M`/`%S` ≤ 59); inside these ranges the `get_time` + `timegm` composition
is exactly `timegm_model` on the positional digits. -/
def dateFieldsOk : List Nat → Bool
  | [_, _, _, _, _, m1, m2, _, d1, d2, _, h1, h2, _, i1, i2, _, s1, s2, _] =>
    decide (1 ≤ num2 m1 m2) && decide (num2 m1 m2 ≤ 12) &&
    decide (1 ≤ num2 d1 d2) && decide (num2 d1 d2 ≤ 31) &&
    decide (num2 h1 h2 ≤ 23) && decide (num2 i1 i2 ≤ 59) && decide (num2 s1 s2 ≤ 59)
  | _ => false

/-- A composite value covering every scalar variant plus nested Array and
Map, with sorted keys; used to instantiate the round-trip results.  The tick
count is the test suite's `2025-11-15T12:30:00Z` in nanoseconds and the real
is the bit pattern of `3.14`. -/
def exampleValue : Value :=
  .mapV (some (
    .cons (strBytes "arr")
      (.arrV (some (.cons (.intV 258) (.cons (.strV (strBytes "hi"))
        (.cons (.boolV true) (.cons (.realV 0x40091EB851EB851F)
        (.cons .undef .nil)))))))
    (.cons (strBytes "bin") (.binV [1, 2, 3])
    (.cons (strBytes "date") (.dateV 1763209800000000000)
    (.cons (strBytes "uri") (.uriV (strBytes "http://example.com"))
    (.cons (strBytes "uuid")
      (.uuidV [107, 234, 93, 14, 203, 184, 78, 55, 156, 191, 184, 193, 49, 173, 110, 53])
    .nil))))))

/-- Wire entry sequence with a repeated key: `k ↦ 1` then `k ↦ 2`. -/
def dupEntries : EList :=
  .cons (strBytes "k") (.intV 1) (.cons (strBytes "k") (.intV 2) .nil)

/-! ## Byte-level round-trip lemmas -/

theorem read_write_i32 (n : Int) (h1 : -(2^31) ≤ n) (h2 : n < 2^31) (r : List Nat) :
    read_i32_be (write_i32_be n ++ r) = .ok (n, r) := by
  have hd : write_i32_be n ++ r =
      ((n % 2^32).toNat / 2^24 % 256) :: ((n % 2^32).toNat / 2^16 % 256) ::
      ((n % 2^32).toNat / 2^8 % 256) :: ((n % 2^32).toNat % 256) :: r := rfl
  rw [hd]
  unfold read_i32_be i32FromBytes
  have hmod : 0 ≤ n % 2^32 ∧ n % 2^32 < 2^32 := by
    constructor
    · exact Int.emod_nonneg n (by norm_num)
    · exact Int.emod_lt_of_pos n (by norm_num)
  have hval : (if 0 ≤ n then n % 2^32 = n else n % 2^32 = n + 2^32) := by
    split
    · exact Int.emod_eq_of_lt (by assumption) (by omega)
    · omega
  simp only [Except.ok.injEq, Prod.mk.injEq, and_true]
  omega

theorem read_bytes_append (b r : List Nat) : read_bytes b.length (b ++ r) = .ok (b, r) := by
  unfold read_bytes
  simp

theorem read_write_string (s : List Nat) (h : s.length < 2^31) (r : List Nat) :
    read_string (write_string s ++ r) = .ok (s, r) := by
  unfold read_string write_string
  rw [List.append_assoc, read_write_i32 (s.length : Int) (by omega) (by exact_mod_cast h)]
  simp only [Except.bind, bind]
  rw [if_neg (by omega)]
  simp only [Int.toNat_natCast]
  rw [read_bytes_append]
  rfl

theorem bits_write_double_be (x : Nat) (h : x < 2^64) :
    bitsFromBytesBE (write_double_be x) = x := by
  unfold bitsFromBytesBE write_double_be
  simp only [List.foldl]
  omega

theorem write_double_le_reverse (x : Nat) :
    (write_double_le x).reverse = write_double_be x := by
  unfold write_double_le write_double_be
  simp

/-! ## Order lemmas for byte-lexicographic key comparison -/

theorem lexLt_irrefl (a : List Nat) : lexLt a a = false := by
  induction a with
  | nil => rfl
  | cons x xs ih => simp [lexLt, ih]

theorem lexLt_ne {a b : List Nat} (h : lexLt a b = true) : a ≠ b := by
  intro he
  subst he
  rw [lexLt_irrefl] at h
  exact Bool.false_ne_true h

theorem lexLt_asymm : ∀ a b : List Nat, lexLt a b = true → lexLt b a = false := by
  intro a
  induction a with
  | nil =>
    intro b hb
    cases b with
    | nil => exact absurd hb (by simp [lexLt])
    | cons y ys => rfl
  | cons x xs ih =>
    intro b hb
    cases b with
    | nil => exact absurd hb (by simp [lexLt])
    | cons y ys =>
      simp only [lexLt] at hb ⊢
      rcases Nat.lt_trichotomy x y with h | h | h
      · rw [if_neg (Nat.lt_asymm h), if_pos h]
      · subst h
        simp only [Nat.lt_irrefl, if_false, if_neg] at hb ⊢
        exact ih ys hb
      · rw [if_neg (Nat.lt_asymm h), if_pos h] at hb
        exact absurd hb (by simp)

theorem lexLt_trans : ∀ a b c : List Nat,
    lexLt a b = true → lexLt b c = true → lexLt a c = true := by
  intro a
  induction a with
  | nil =>
    intro b c hab hbc
    cases b with
    | nil => exact absurd hab (by simp [lexLt])
    | cons y ys =>
      cases c with
      | nil => exact absurd hbc (by simp [lexLt])
      | cons z zs => rfl
  | cons x xs ih =>
    intro b c hab hbc
    cases b with
    | nil => exact absurd hab (by simp [lexLt])
    | cons y ys =>
      cases c with
      | nil => exact absurd hbc (by simp [lexLt])
      | cons z zs =>
        simp only [lexLt] at hab hbc ⊢
        rcases Nat.lt_trichotomy x y with hxy | hxy | hxy
        · rcases Nat.lt_trichotomy y z with hyz | hyz | hyz
          · rw [if_pos (Nat.lt_trans hxy hyz)]
          · subst hyz; rw [if_pos hxy]
          · rw [if_neg (Nat.lt_asymm hyz), if_pos hyz] at hbc
            exact absurd hbc (by simp)
        · subst hxy
          simp only [Nat.lt_irrefl, if_neg, if_false] at hab
          rcases Nat.lt_trichotomy x z with hxz | hxz | hxz
          · rw [if_pos hxz]
          · subst hxz
            simp only [Nat.lt_irrefl, if_neg, if_false] at hbc ⊢
            exact ih ys zs hab hbc
          · rw [if_neg (Nat.lt_asymm hxz), if_pos hxz] at hbc
            exact absurd hbc (by simp)
        · rw [if_neg (Nat.lt_asymm hxy), if_pos hxy] at hab
          exact absurd hab (by simp)

theorem lexLt_total : ∀ a b : List Nat, a ≠ b → lexLt a b = true ∨ lexLt b a = true := by
  intro a
  induction a with
  | nil =>
    intro b hne
    cases b with
    | nil => exact absurd rfl hne
    | cons y ys => exact Or.inl rfl
  | cons x xs ih =>
    intro b hne
    cases b with
    | nil => exact Or.inr rfl
    | cons y ys =>
      simp only [lexLt]
      rcases Nat.lt_trichotomy x y with h | h | h
      · left; rw [if_pos h]
      · subst h
        simp only [Nat.lt_irrefl, if_neg, if_false]
        have : xs ≠ ys := fun he => hne (by rw [he])
        exact ih ys this
      · right; rw [if_pos h]

/-! ## Association-list lemmas for the `std::map` model -/

theorem eAppend_nil : ∀ (m : EList), eAppend m .nil = m
  | .nil => rfl
  | .cons _ _ t => by rw [eAppend, eAppend_nil t]

theorem eAppend_assoc : ∀ (a b c : EList),
    eAppend (eAppend a b) c = eAppend a (eAppend b c)
  | .nil, _, _ => rfl
  | .cons _ _ t, b, c => by rw [eAppend, eAppend, eAppend_assoc t, eAppend]

theorem eAllLt_append : ∀ (a b : EList) (q : List Nat),
    eAllLt (eAppend a b) q = (eAllLt a q && eAllLt b q)
  | .nil, b, q => by simp [eAppend, eAllLt]
  | .cons _ _ t, b, q => by
    rw [eAppend, eAllLt, eAllLt_append t, eAllLt, Bool.and_assoc]

theorem mapInsert_above : ∀ (acc : EList) (k : List Nat) (v : Value),
    eAllLt acc k = true → mapInsert k v acc = eAppend acc (.cons k v .nil)
  | .nil, _, _, _ => rfl
  | .cons k' v' t, k, v, h => by
    simp only [eAllLt, Bool.and_eq_true] at h
    have h1 : ¬ (lexLt k k' = true) := by simp [lexLt_asymm _ _ h.1]
    have h2 : ¬ (k = k') := fun he => lexLt_ne h.1 he.symm
    simp only [mapInsert, eAppend]
    rw [if_neg h1, if_neg h2, mapInsert_above t k v h.2]

theorem sorted_head_lt : ∀ (t : EList) (k' : List Nat) (v' : Value),
    sortedE (.cons k' v' t) = true → ∀ q ∈ keysE t, lexLt k' q = true
  | .nil, _, _, _, q, hq => absurd hq (by simp [keysE])
  | .cons k2 v2 t2, k', v', hs, q, hq => by
    rw [sortedE, Bool.and_eq_true] at hs
    obtain ⟨h1, h2⟩ := hs
    rw [eLtHead] at h1
    simp only [keysE, List.mem_cons] at hq
    rcases hq with hq | hq
    · subst hq; exact h1
    · exact lexLt_trans _ _ _ h1 (sorted_head_lt t2 k2 v2 h2 q hq)

theorem insertAll_sorted_suffix : ∀ (M acc : EList), sortedE M = true →
    (∀ q ∈ keysE M, eAllLt acc q = true) → insertAll acc M = eAppend acc M
  | .nil, acc, _, _ => by simp [insertAll, eAppend_nil]
  | .cons k v t, acc, hs, hb => by
    have hs' := hs
    rw [sortedE, Bool.and_eq_true] at hs'
    have hbt : ∀ q ∈ keysE t, eAllLt (eAppend acc (.cons k v .nil)) q = true := by
      intro q hq
      rw [eAllLt_append]
      have h1 : eAllLt acc q = true := hb q (by simp [keysE, hq])
      have h2 : lexLt k q = true := sorted_head_lt t k v hs q hq
      simp [eAllLt, h1, h2]
    rw [insertAll, mapInsert_above acc k v (hb k (by simp [keysE])),
      insertAll_sorted_suffix t (eAppend acc (.cons k v .nil)) hs'.2 hbt,
      eAppend_assoc]
    rfl

theorem insertAll_id (M : EList) (hs : sortedE M = true) : insertAll .nil M = M := by
  have := insertAll_sorted_suffix M .nil hs (fun q _ => by simp [eAllLt])
  simpa [eAppend] using this

theorem mapFind_insert (q k : List Nat) (v : Value) : ∀ (M : EList),
    mapFind q (mapInsert k v M) = if q = k then some v else mapFind q M
  | .nil => by simp [mapInsert, mapFind]
  | .cons k' v' t => by
    simp only [mapInsert]
    by_cases h1 : lexLt k k' = true
    · rw [if_pos h1]
      rfl
    · rw [if_neg h1]
      by_cases h2 : k = k'
      · subst h2
        rw [if_pos rfl]
        by_cases h3 : q = k
        · simp [mapFind, h3]
        · simp [mapFind, h3]
      · rw [if_neg h2]
        simp only [mapFind, mapFind_insert q k v t]
        by_cases ha : q = k'
        · by_cases hb : q = k
          · exact absurd (hb.symm.trans ha) h2
          · simp only [ha, hb, if_true, if_false, if_neg hb]
            rw [if_neg (fun he : k' = k => h2 he.symm)]
        · by_cases hb : q = k
          · simp [ha, hb, h2]
          · simp [ha, hb]

theorem mapFind_insertAll (q : List Nat) : ∀ (E acc : EList),
    mapFind q (insertAll acc E) = ((lastVal q E).orElse fun _ => mapFind q acc)
  | .nil, acc => by simp [insertAll, lastVal]
  | .cons k v t, acc => by
    simp only [insertAll, lastVal, mapFind_insertAll q t, mapFind_insert]
    cases lastVal q t with
    | some w => simp
    | none =>
      by_cases h : q = k
      · simp [h]
      · simp [h]

theorem eLtHead_insert (k' k : List Nat) (v : Value) (t : EList)
    (hk : lexLt k' k = true) (ht : eLtHead k' t = true) :
    eLtHead k' (mapInsert k v t) = true := by
  cases t with
  | nil => simpa [mapInsert, eLtHead] using hk
  | cons k2 v2 t2 =>
    rw [eLtHead] at ht
    simp only [mapInsert]
    by_cases h1 : lexLt k k2 = true
    · rw [if_pos h1, eLtHead]; exact hk
    · rw [if_neg h1]
      by_cases h2 : k = k2
      · rw [if_pos h2, eLtHead]; exact hk
      · rw [if_neg h2, eLtHead]; exact ht

theorem mapInsert_sorted (k : List Nat) (v : Value) : ∀ (M : EList),
    sortedE M = true → sortedE (mapInsert k v M) = true
  | .nil, _ => by simp [mapInsert, sortedE, eLtHead]
  | .cons k' v' t, hs => by
    rw [sortedE, Bool.and_eq_true] at hs
    simp only [mapInsert]
    by_cases h1 : lexLt k k' = true
    · rw [if_pos h1, sortedE, eLtHead, sortedE]
      simp [h1, hs.1, hs.2]
    · rw [if_neg h1]
      by_cases h2 : k = k'
      · subst h2
        rw [if_pos rfl, sortedE]
        simp [hs.1, hs.2]
      · rw [if_neg h2, sortedE]
        have hk'k : lexLt k' k = true := by
          rcases lexLt_total k k' h2 with h | h
          · exact absurd h h1
          · exact h
        simp [eLtHead_insert k' k v t hk'k hs.1, mapInsert_sorted k v t hs.2]

theorem insertAll_sorted : ∀ (E acc : EList),
    sortedE acc = true → sortedE (insertAll acc E) = true
  | .nil, _, hs => hs
  | .cons k v t, acc, hs =>
    insertAll_sorted t (mapInsert k v acc) (mapInsert_sorted k v acc hs)

theorem keysE_mem_insert (q k : List Nat) (v : Value) : ∀ (M : EList),
    (q ∈ keysE (mapInsert k v M)) ↔ (q = k ∨ q ∈ keysE M)
  | .nil => by simp [mapInsert, keysE]
  | .cons k' v' t => by
    simp only [mapInsert]
    by_cases h1 : lexLt k k' = true
    · rw [if_pos h1]
      simp only [keysE, List.mem_cons]
      try tauto
    · rw [if_neg h1]
      by_cases h2 : k = k'
      · subst h2
        rw [if_pos rfl]
        simp only [keysE, List.mem_cons]
        try tauto
      · rw [if_neg h2]
        simp only [keysE, List.mem_cons, keysE_mem_insert q k v t]
        tauto

theorem keysE_length : ∀ (M : EList), M.length = (keysE M).length
  | .nil => rfl
  | .cons _ _ t => by simp [EList.length, keysE, keysE_length t]

theorem sorted_keys_nodup : ∀ (M : EList), sortedE M = true → (keysE M).Nodup
  | .nil, _ => by simp [keysE]
  | .cons k v t, hs => by
    rw [sortedE, Bool.and_eq_true] at hs
    rw [keysE, List.nodup_cons]
    refine ⟨fun hm => ?_, sorted_keys_nodup t hs.2⟩
    have := sorted_head_lt t k v (by rw [sortedE, Bool.and_eq_true]; exact hs) k hm
    exact lexLt_ne this rfl

theorem mapInsert_length (k : List Nat) (v : Value) : ∀ (M : EList),
    sortedE M = true →
    (mapInsert k v M).length = if k ∈ keysE M then M.length else M.length + 1
  | .nil, _ => by simp [mapInsert, EList.length, keysE]
  | .cons k' v' t, hs => by
    have hs' := hs
    rw [sortedE, Bool.and_eq_true] at hs'
    simp only [mapInsert]
    by_cases h1 : lexLt k k' = true
    · rw [if_pos h1]
      have hne : k ∉ keysE (.cons k' v' t) := by
        rw [keysE, List.mem_cons]
        rintro (he | hm)
        · exact lexLt_ne h1 he
        · exact lexLt_ne (lexLt_trans _ _ _ h1 (sorted_head_lt t k' v' hs k hm)) rfl
      rw [if_neg hne]
      simp [EList.length]
    · rw [if_neg h1]
      by_cases h2 : k = k'
      · subst h2
        rw [if_pos rfl, if_pos (by simp [keysE])]
        simp [EList.length]
      · rw [if_neg h2]
        simp only [EList.length, mapInsert_length k v t hs'.2, keysE, List.mem_cons]
        by_cases h3 : k ∈ keysE t
        · rw [if_pos h3, if_pos (Or.inr h3)]
        · rw [if_neg h3, if_neg (by rintro (he | hm); exacts [h2 he, h3 hm])]

theorem keysE_toFinset_insert (k : List Nat) (v : Value) (M : EList) :
    (keysE (mapInsert k v M)).toFinset = insert k (keysE M).toFinset := by
  ext q
  simp [keysE_mem_insert]

theorem insertAll_length : ∀ (E acc : EList), sortedE acc = true →
    (insertAll acc E).length = ((keysE acc).toFinset ∪ (keysE E).toFinset).card
  | .nil, acc, hs => by
    rw [insertAll, keysE_length acc,
      ← List.toFinset_card_of_nodup (sorted_keys_nodup acc hs)]
    simp [keysE]
  | .cons k v t, acc, hs => by
    rw [insertAll, insertAll_length t (mapInsert k v acc) (mapInsert_sorted k v acc hs),
      keysE_toFinset_insert]
    rw [keysE]
    simp [Finset.insert_union, Finset.union_insert]

/-! ## The binary round trip -/

theorem parseStep_roundtrip : ∀ (fuel : Nat),
    (∀ (v : Value) (r : List Nat), wfValue v = true → datesOkV v = true →
      sizeOf v < fuel →
      parseStep fuel .one (format_binary v ++ r) = .ok (.val v, r)) ∧
    (∀ (l : VList) (r : List Nat), wfVList l = true → datesOkL l = true →
      sizeOf l < fuel →
      parseStep fuel (.elems l.length) (formatVList l ++ r) = .ok (.list l, r)) ∧
    (∀ (m acc : EList) (r : List Nat), wfEntries m = true → datesOkE m = true →
      sizeOf m < fuel →
      parseStep fuel (.entries m.length acc) (formatEList m ++ r)
        = .ok (.ents (insertAll acc m), r)) := by
  intro fuel
  induction fuel with
  | zero =>
    refine ⟨?_, ?_, ?_⟩
    · intro v r _ _ hsz; omega
    · intro l r _ _ hsz; omega
    · intro m acc r _ _ hsz; omega
  | succ fuel ih =>
    obtain ⟨ih1, ih2, ih3⟩ := ih
    refine ⟨?_, ?_, ?_⟩
    · intro v r hwf hd hsz
      cases v with
      | undef => simp [format_binary, parseStep]; rfl
      | boolV b => cases b <;> (simp [format_binary, parseStep]; rfl)
      | intV n =>
        simp only [wfValue, Bool.and_eq_true, decide_eq_true_eq] at hwf
        simp only [format_binary, List.cons_append, parseStep]
        norm_num
        rw [read_write_i32 n hwf.1 hwf.2]
        rfl
      | realV x =>
        simp only [wfValue, decide_eq_true_eq] at hwf
        have h8 : read_bytes 8 (write_double_be x ++ r) = .ok (write_double_be x, r) :=
          read_bytes_append (write_double_be x) r
        simp only [format_binary, List.cons_append, parseStep]
        norm_num
        rw [h8]
        simp only [Functor.map, Except.map, bits_write_double_be x hwf]
      | strV s =>
        simp only [wfValue, decide_eq_true_eq] at hwf
        simp only [format_binary, write_string, List.cons_append, List.append_assoc, parseStep]
        norm_num
        rw [show write_i32_be (s.length:Int) ++ (s ++ r) = write_string s ++ r by
          simp [write_string]]
        rw [read_write_string s hwf r]
        rfl
      | uuidV u =>
        simp only [wfValue, decide_eq_true_eq] at hwf
        have h16 : read_bytes 16 (u ++ r) = .ok (u, r) := by
          rw [← hwf]; exact read_bytes_append u r
        simp only [format_binary, List.cons_append, parseStep]
        norm_num
        rw [h16]
        rfl
      | dateV t =>
        simp only [wfValue, decide_eq_true_eq] at hwf
        simp only [datesOkV, decide_eq_true_eq] at hd
        have h8 : read_bytes 8 (write_double_le (ticksToDblBits t) ++ r)
            = .ok (write_double_le (ticksToDblBits t), r) := read_bytes_append _ r
        simp only [format_binary, List.cons_append, parseStep]
        norm_num
        rw [h8]
        simp only [Functor.map, Except.map, write_double_le_reverse,
          bits_write_double_be _ hwf, hd]
      | uriV s =>
        simp only [wfValue, decide_eq_true_eq] at hwf
        simp only [format_binary, write_string, List.cons_append, List.append_assoc, parseStep]
        norm_num
        rw [show write_i32_be (s.length:Int) ++ (s ++ r) = write_string s ++ r by
          simp [write_string]]
        rw [read_write_string s hwf r]
        rfl
      | binV b =>
        simp only [wfValue, decide_eq_true_eq] at hwf
        simp only [format_binary, List.cons_append, List.append_assoc, parseStep]
        norm_num
        rw [read_write_i32 (b.length:Int) (by omega) (by exact_mod_cast hwf)]
        simp only [bind, Except.bind]
        rw [if_neg (by omega)]
        simp only [Int.toNat_natCast]
        rw [read_bytes_append b r]
        rfl
      | arrV oe =>
        cases oe with
        | none => simp [wfValue] at hwf
        | some l =>
          simp only [wfValue, Bool.and_eq_true, decide_eq_true_eq] at hwf
          have hdl : datesOkL l = true := by simpa [datesOkV] using hd
          have hszl : sizeOf l < fuel := by
            simp only [Value.arrV.sizeOf_spec, Option.some.sizeOf_spec] at hsz; omega
          simp only [format_binary, List.cons_append, List.append_assoc, parseStep]
          norm_num
          rw [read_write_i32 (l.length:Int) (by omega) (by exact_mod_cast hwf.1)]
          simp only [bind, Except.bind]
          rw [if_neg (by omega)]
          simp only [Int.toNat_natCast]
          rw [ih2 l (93 :: r) hwf.2 hdl hszl]
          simp [pure, Except.pure]
      | mapV oe =>
        cases oe with
        | none => simp [wfValue] at hwf
        | some m =>
          simp only [wfValue, Bool.and_eq_true, decide_eq_true_eq] at hwf
          have hdm : datesOkE m = true := by simpa [datesOkV] using hd
          have hszm : sizeOf m < fuel := by
            simp only [Value.mapV.sizeOf_spec, Option.some.sizeOf_spec] at hsz; omega
          simp only [format_binary, List.cons_append, List.append_assoc, parseStep]
          norm_num
          rw [read_write_i32 (m.length:Int) (by omega) (by exact_mod_cast hwf.1.1)]
          simp only [bind, Except.bind]
          simp only [Int.toNat_natCast]
          rw [ih3 m .nil (125 :: r) hwf.2 hdm hszm]
          simp [pure, Except.pure, insertAll_id m hwf.1.2]
    · intro l r hwf hd hsz
      cases l with
      | nil =>
        simp [formatVList, VList.length, parseStep]
      | cons v t =>
        simp only [wfVList, Bool.and_eq_true] at hwf
        simp only [datesOkL, Bool.and_eq_true] at hd
        have h1 : sizeOf v < fuel := by
          simp only [VList.cons.sizeOf_spec] at hsz; omega
        have h2 : sizeOf t < fuel := by
          simp only [VList.cons.sizeOf_spec] at hsz; omega
        simp only [formatVList, VList.length, List.append_assoc, parseStep]
        rw [ih1 v (formatVList t ++ r) hwf.1 hd.1 h1]
        simp only [bind, Except.bind]
        rw [ih2 t r hwf.2 hd.2 h2]
        rfl
    · intro m acc r hwf hd hsz
      cases m with
      | nil =>
        simp [formatEList, EList.length, parseStep, insertAll]
      | cons k v t =>
        simp only [wfEntries, Bool.and_eq_true, decide_eq_true_eq] at hwf
        simp only [datesOkE, Bool.and_eq_true] at hd
        have h1 : sizeOf v < fuel := by
          simp only [EList.cons.sizeOf_spec] at hsz; omega
        have h2 : sizeOf t < fuel := by
          simp only [EList.cons.sizeOf_spec] at hsz; omega
        simp only [formatEList, EList.length, List.cons_append, List.append_assoc, parseStep]
        norm_num
        rw [read_write_string k hwf.1.1 (format_binary v ++ (formatEList t ++ r))]
        simp only [bind, Except.bind]
        rw [ih1 v (formatEList t ++ r) hwf.1.2 hd.1 h1]
        exact ih3 t (mapInsert k v acc) r hwf.2 hd.2 h2

/-! ## Claim theorems -/

/-- C1, counterexample: the claimed round trip `parse_binary (format_binary v)
== v` fails for the Date value whose `time_point` holds 15 nanosecond ticks —
the ticks → double-seconds → ticks conversion truncates it to 14 ticks, so the
parsed value differs structurally from the original. -/
theorem claim_C1_counterexample :
    parse_binary 2 (format_binary (Value.dateV 15)) = .ok (Value.dateV 14, []) ∧
    Value.dateV 14 ≠ Value.dateV 15 := by
  refine ⟨rfl, fun h => ?_⟩
  simp at h

/-- C1 (amended): for every C++-reachable value `v` — containers owned with
sorted unique keys, sizes below `2^31`, `int32`/`double`/UUID payloads of the
proper width — whose Date members' tick counts survive the double-seconds wire
conversion, `parse_binary (format_binary v)` returns exactly `v` with nothing
left unread, recursively through Array and Map (fuel is any bound above the
model's recursion depth, e.g. `sizeOf v + 1`). -/
theorem claim_C1_roundtrip (v : Value) (fuel : Nat) (hwf : wfValue v = true)
    (hdates : datesOkV v = true) (hfuel : sizeOf v < fuel) :
    parse_binary fuel (format_binary v) = .ok (v, []) := by
  unfold parse_binary
  rw [← List.append_nil (format_binary v),
    (parseStep_roundtrip fuel).1 v [] hwf hdates hfuel]

/-- C1 witness: the amended round trip instantiated on a concrete map holding
every scalar variant, a nested array, and a whole-second Date. -/
theorem claim_C1_witness :
    parse_binary (sizeOf exampleValue + 1) (format_binary exampleValue)
      = .ok (exampleValue, []) :=
  claim_C1_roundtrip exampleValue (sizeOf exampleValue + 1) (by decide) (by decide)
    (Nat.lt_succ_self _)

/-- C5: `format_binary` emits exactly the documented wire bytes for
Integer 258 (`i 00 00 01 02`), Booleans (`1` / `0`), String "hello"
(`s 00 00 00 05 h e l l o`), the Map `{"key": 1}` and the Array `[1, 2]`. -/
theorem claim_C5_wire_bytes :
    format_binary (.intV 258) = [105, 0, 0, 1, 2] ∧
    format_binary (.boolV true) = [49] ∧
    format_binary (.boolV false) = [48] ∧
    format_binary (.strV (strBytes "hello"))
      = [115, 0, 0, 0, 5, 104, 101, 108, 108, 111] ∧
    format_binary (.mapV (some (.cons (strBytes "key") (.intV 1) .nil)))
      = [123, 0, 0, 0, 1, 107, 0, 0, 0, 3, 107, 101, 121, 105, 0, 0, 0, 1, 125] ∧
    format_binary (.arrV (some (.cons (.intV 1) (.cons (.intV 2) .nil))))
      = [91, 0, 0, 0, 2, 105, 0, 0, 0, 1, 105, 0, 0, 0, 2, 93] :=
  ⟨rfl, rfl, rfl, rfl, rfl, rfl⟩

/-- C7: formatting a moved-from (null-container) Array or Map emits exactly
the opening tag, a four-byte zero count, and the closing tag — the totality of
`format_binary` on these states is the no-crash guarantee. -/
theorem claim_C7_null_containers :
    format_binary (.arrV none) = [91, 0, 0, 0, 0, 93] ∧
    format_binary (.mapV none) = [123, 0, 0, 0, 0, 125] :=
  ⟨rfl, rfl⟩

/-- C2, counterexample: a negative declared Map count does 'not' fail the
parse.  The wire `7B FF FF FF FF 7D` declares count −1; the C++ entry loop
`for (int i = 0; i < size; ++i)` runs zero times and the parse succeeds with
an empty Map — contradicting the claim that negative container counts fail. -/
theorem claim_C2_counterexample :
    parse_binary 3 [123, 255, 255, 255, 255, 125] = .ok (.mapV (some .nil), []) ∧
    i32FromBytes 255 255 255 255 = -1 :=
  ⟨rfl, rfl⟩

/-- C2 (amended): `parse_binary` fails with an error on an unrecognized tag
byte; on a negative declared String/URI length (`Invalid string size`) or
Binary length; on a declared length exceeding the remaining stream; on a
missing or incorrect `k` tag before a map key; on a missing closing `]`/`}`;
on a truncated fixed-width payload; and on a negative declared Array count
(`std::vector::reserve` of the huge converted `size_t` throws).  A negative
declared Map count, however, is treated as zero entries and succeeds. -/
theorem claim_C2_errors :
    (∀ (c : Nat) (r : List Nat) (fuel : Nat), validTag c = false →
      parse_binary (fuel + 1) (c :: r) = .error "Invalid binary token") ∧
    (∀ (n : Int) (r : List Nat) (fuel : Nat), -(2^31) ≤ n → n < 0 →
      parse_binary (fuel + 1) (115 :: write_i32_be n ++ r)
        = .error "Invalid string size") ∧
    (∀ (n : Int) (r : List Nat) (fuel : Nat),
      0 ≤ n → n < 2^31 → (r.length : Int) < n →
      parse_binary (fuel + 1) (115 :: write_i32_be n ++ r)
        = .error "Unexpected end of stream while reading string") ∧
    (∀ (cnt : Int) (b : Nat) (r : List Nat) (fuel : Nat),
      1 ≤ cnt → cnt < 2^31 → b ≠ 107 →
      parse_binary (fuel + 2) (123 :: write_i32_be cnt ++ b :: r)
        = .error "Expected k for map key") ∧
    (∀ (b : Nat) (r : List Nat) (fuel : Nat), b ≠ 93 →
      parse_binary (fuel + 2) (91 :: write_i32_be 0 ++ b :: r)
        = .error "Expected closing bracket for array") ∧
    (∀ (b : Nat) (r : List Nat) (fuel : Nat), b ≠ 125 →
      parse_binary (fuel + 2) (123 :: write_i32_be 0 ++ b :: r)
        = .error "Expected closing brace for map") ∧
    (∀ (n : Int) (r : List Nat) (fuel : Nat), -(2^31) ≤ n → n < 0 →
      parse_binary (fuel + 1) (91 :: write_i32_be n ++ r)
        = .error "vector reserve length_error") ∧
    (∀ (n : Int) (r : List Nat) (fuel : Nat), -(2^31) ≤ n → n < 0 →
      parse_binary (fuel + 1) (98 :: write_i32_be n ++ r)
        = .error "Invalid binary size") ∧
    (∀ (r : List Nat) (fuel : Nat), r.length < 4 →
      parse_binary (fuel + 1) (105 :: r) = .error "Unexpected end of stream") := by
  refine ⟨?_, ?_, ?_, ?_, ?_, ?_, ?_, ?_, ?_⟩
  · intro c r fuel h
    simp only [validTag, Bool.or_eq_false_iff, decide_eq_false_iff_not] at h
    obtain ⟨⟨⟨⟨⟨⟨⟨⟨⟨⟨⟨h1, h2⟩, h3⟩, h4⟩, h5⟩, h6⟩, h7⟩, h8⟩, h9⟩, h10⟩, h11⟩, h12⟩ := h
    unfold parse_binary parseStep
    rw [if_neg h1, if_neg h2, if_neg h3, if_neg h4, if_neg h5, if_neg h6,
      if_neg h7, if_neg h8, if_neg h9, if_neg h10, if_neg h11, if_neg h12]
  · intro n r fuel ha hb
    unfold parse_binary parseStep
    norm_num
    unfold read_string
    rw [read_write_i32 n ha (by omega)]
    simp only [bind, Except.bind]
    rw [if_pos hb]
    rfl
  · intro n r fuel hb hb2 hc
    unfold parse_binary parseStep
    norm_num
    unfold read_string
    rw [read_write_i32 n (by omega) hb2]
    simp only [bind, Except.bind]
    rw [if_neg (by omega)]
    unfold read_bytes
    rw [if_pos (by omega)]
    rfl
  · intro cnt b r fuel h1 h2 hb
    unfold parse_binary parseStep
    norm_num
    rw [read_write_i32 cnt (by omega) h2]
    simp only [bind, Except.bind]
    obtain ⟨m, hm⟩ : ∃ m, cnt.toNat = m + 1 := ⟨cnt.toNat - 1, by omega⟩
    rw [hm]
    unfold parseStep
    rw [if_neg hb]
  · intro b r fuel hb
    unfold parse_binary parseStep
    norm_num
    rw [read_write_i32 0 (by norm_num) (by norm_num)]
    simp only [bind, Except.bind]
    norm_num
    unfold parseStep
    simp [hb, throw, throwThe, MonadExceptOf.throw]
  · intro b r fuel hb
    unfold parse_binary parseStep
    norm_num
    rw [read_write_i32 0 (by norm_num) (by norm_num)]
    simp only [bind, Except.bind]
    norm_num
    unfold parseStep
    simp [hb, throw, throwThe, MonadExceptOf.throw]
  · intro n r fuel ha hb
    unfold parse_binary parseStep
    norm_num
    rw [read_write_i32 n ha (by omega)]
    simp only [bind, Except.bind]
    rw [if_pos hb]
  · intro n r fuel ha hb
    unfold parse_binary parseStep
    norm_num
    rw [read_write_i32 n ha (by omega)]
    simp only [bind, Except.bind]
    rw [if_pos hb]
  · intro r fuel h
    unfold parse_binary parseStep
    norm_num
    match r, h with
    | [], _ => rfl
    | [a], _ => rfl
    | [a, b], _ => rfl
    | [a, b, c], _ => rfl

/-- C2 witness: each failure mode exercised on a concrete malformed input. -/
theorem claim_C2_witness :
    parse_binary 3 (200 :: []) = .error "Invalid binary token" ∧
    parse_binary 3 (115 :: write_i32_be (-5) ++ []) = .error "Invalid string size" ∧
    parse_binary 3 (115 :: write_i32_be 10 ++ [1, 2, 3])
      = .error "Unexpected end of stream while reading string" ∧
    parse_binary 4 (123 :: write_i32_be 1 ++ 88 :: [])
      = .error "Expected k for map key" ∧
    parse_binary 4 (91 :: write_i32_be 0 ++ 88 :: [])
      = .error "Expected closing bracket for array" ∧
    parse_binary 4 (123 :: write_i32_be 0 ++ 88 :: [])
      = .error "Expected closing brace for map" ∧
    parse_binary 3 (91 :: write_i32_be (-1) ++ [])
      = .error "vector reserve length_error" ∧
    parse_binary 3 (98 :: write_i32_be (-1) ++ []) = .error "Invalid binary size" ∧
    parse_binary 3 (105 :: [0, 0]) = .error "Unexpected end of stream" :=
  ⟨claim_C2_errors.1 200 [] 2 (by decide),
   claim_C2_errors.2.1 (-5) [] 2 (by decide) (by decide),
   claim_C2_errors.2.2.1 10 [1, 2, 3] 2 (by decide) (by decide) (by decide),
   claim_C2_errors.2.2.2.1 1 88 [] 2 (by decide) (by decide) (by decide),
   claim_C2_errors.2.2.2.2.1 88 [] 2 (by decide),
   claim_C2_errors.2.2.2.2.2.1 88 [] 2 (by decide),
   claim_C2_errors.2.2.2.2.2.2.1 (-1) [] 2 (by decide) (by decide),
   claim_C2_errors.2.2.2.2.2.2.2.1 (-1) [] 2 (by decide) (by decide),
   claim_C2_errors.2.2.2.2.2.2.2.2 [0, 0] 2 (by decide)⟩

/-- C3: `detail::from_json` classifies every JSON string by the fixed ordered
chain of the source — `data:base64,` mark first (Binary from base64-decoding
the remainder), then the lowercase hyphenated UUID pattern, then the
`YYYY-MM-DDTHH:MM:SSZ` pattern (a Date, whose value is the UTC `timegm`
interpretation of the fields whenever they are within `get_time`'s
per-directive ranges), and otherwise the verbatim String. -/
theorem claim_C3_sniffing_order (s : List Nat) :
    (hasB64Mark s = true → from_json (.strJ s) = .binV (from_base64 (s.drop 12))) ∧
    (hasB64Mark s = false → uuidMatch s = true →
      from_json (.strJ s) = .uuidV (uuidBytesOfString s)) ∧
    (hasB64Mark s = false → uuidMatch s = false → dateMatch s = true →
      isDateV (from_json (.strJ s)) = true ∧
      (dateFieldsOk s = true → from_json (.strJ s) = .dateV (dateTicksOfString s))) ∧
    (hasB64Mark s = false → uuidMatch s = false → dateMatch s = false →
      from_json (.strJ s) = .strV s) := by
  refine ⟨?_, ?_, ?_, ?_⟩
  · intro h; simp [from_json, h]
  · intro h1 h2; simp [from_json, h1, h2]
  · intro h1 h2 h3
    refine ⟨by simp [from_json, h1, h2, h3, isDateV], fun _ => ?_⟩
    simp [from_json, h1, h2, h3]
  · intro h1 h2 h3; simp [from_json, h1, h2, h3]

/-- C3 witness: the four chain outcomes on concrete strings; the date string
is the test suite's `2025-11-15T12:30:00Z`, recovered as 1763209800 UTC
seconds in nanosecond ticks. -/
theorem claim_C3_witness :
    from_json (.strJ (strBytes "data:base64,AQID")) = .binV [1, 2, 3] ∧
    from_json (.strJ (strBytes "6bea5d0e-cbb8-4e37-9cbf-b8c131ad6e35"))
      = .uuidV [107, 234, 93, 14, 203, 184, 78, 55, 156, 191, 184, 193, 49, 173, 110, 53] ∧
    from_json (.strJ (strBytes "2025-11-15T12:30:00Z"))
      = .dateV 1763209800000000000 ∧
    from_json (.strJ (strBytes "hello")) = .strV (strBytes "hello") :=
  ⟨(claim_C3_sniffing_order (strBytes "data:base64,AQID")).1 (by decide),
   (claim_C3_sniffing_order (strBytes "6bea5d0e-cbb8-4e37-9cbf-b8c131ad6e35")).2.1
     (by decide) (by decide),
   ((claim_C3_sniffing_order (strBytes "2025-11-15T12:30:00Z")).2.2.1
     (by decide) (by decide) (by decide)).2 (by decide),
   (claim_C3_sniffing_order (strBytes "hello")).2.2.2
     (by decide) (by decide) (by decide)⟩

/-- C4, counterexample: a URI whose text carries the `data:base64,` mark does
'not' come back from JSON as a String — the sniffing chain turns it into a
Binary, refuting the claim's universal "yields a String equal to u's text". -/
theorem claim_C4_counterexample :
    from_json (to_json (Value.uriV (strBytes "data:base64,AQID"))) = .binV [1, 2, 3] ∧
    from_json (to_json (Value.uriV (strBytes "data:base64,AQID")))
      ≠ .strV (strBytes "data:base64,AQID") := by
  refine ⟨rfl, fun h => ?_⟩
  rw [show from_json (to_json (Value.uriV (strBytes "data:base64,AQID")))
    = .binV [1, 2, 3] from rfl] at h
  simp at h

/-- C4 (amended): a URI value formatted to JSON is emitted as its plain text
and parsing that back never yields a URI; it yields a String equal to the
URI's text 'unless' the text happens to match one of the sniffing patterns,
in which case it is recovered as Binary, UUID, or Date respectively. -/
theorem claim_C4_uri_loss (u : List Nat) :
    isUriV (from_json (to_json (.uriV u))) = false ∧
    (hasB64Mark u = false → uuidMatch u = false → dateMatch u = false →
      from_json (to_json (.uriV u)) = .strV u) ∧
    (hasB64Mark u = true →
      from_json (to_json (.uriV u)) = .binV (from_base64 (u.drop 12))) ∧
    (hasB64Mark u = false → uuidMatch u = true →
      from_json (to_json (.uriV u)) = .uuidV (uuidBytesOfString u)) ∧
    (hasB64Mark u = false → uuidMatch u = false → dateMatch u = true →
      isDateV (from_json (to_json (.uriV u))) = true) := by
  have hj : to_json (.uriV u) = .strJ u := rfl
  rw [hj]
  refine ⟨?_, ?_, ?_, ?_, ?_⟩
  · by_cases h1 : hasB64Mark u = true
    · simp [from_json, h1, isUriV]
    · rw [Bool.not_eq_true] at h1
      by_cases h2 : uuidMatch u = true
      · simp [from_json, h1, h2, isUriV]
      · rw [Bool.not_eq_true] at h2
        by_cases h3 : dateMatch u = true
        · simp [from_json, h1, h2, h3, isUriV]
        · rw [Bool.not_eq_true] at h3
          simp [from_json, h1, h2, h3, isUriV]
  · intro h1 h2 h3; simp [from_json, h1, h2, h3]
  · intro h1; simp [from_json, h1]
  · intro h1 h2; simp [from_json, h1, h2]
  · intro h1 h2 h3; simp [from_json, h1, h2, h3, isDateV]

/-- C4 witness: the documented lossy path on `http://example.com` — back as a
String, never a URI. -/
theorem claim_C4_witness :
    isUriV (from_json (to_json (.uriV (strBytes "http://example.com")))) = false ∧
    from_json (to_json (.uriV (strBytes "http://example.com")))
      = .strV (strBytes "http://example.com") :=
  ⟨(claim_C4_uri_loss (strBytes "http://example.com")).1,
   (claim_C4_uri_loss (strBytes "http://example.com")).2.1
     (by decide) (by decide) (by decide)⟩

/-- C6: the Date payload is the `double` bit pattern in little-endian byte
order — the reverse of the big-endian order used for Real — while Integer,
Real and every length prefix are big-endian; and the parser reads the Date
payload back with the same little-endian order (recovering exactly the bit
pattern the formatter wrote, then converting seconds to ticks). -/
theorem claim_C6_date_endianness :
    (∀ t : Int, format_binary (.dateV t) = 100 :: write_double_le (ticksToDblBits t)) ∧
    (∀ x : Nat, write_double_le x = (write_double_be x).reverse) ∧
    (∀ x : Nat, format_binary (.realV x) = 114 :: write_double_be x) ∧
    (∀ n : Int, format_binary (.intV n) = 105 :: write_i32_be n) ∧
    (∀ s : List Nat, format_binary (.strV s) = 115 :: write_i32_be (s.length : Int) ++ s) ∧
    (∀ (x : Nat) (r : List Nat) (fuel : Nat), x < 2^64 →
      parse_binary (fuel + 1) (100 :: write_double_le x ++ r)
        = .ok (.dateV (dblBitsToTicks x), r)) ∧
    (∀ (x : Nat) (r : List Nat) (fuel : Nat), x < 2^64 →
      parse_binary (fuel + 1) (114 :: write_double_be x ++ r)
        = .ok (.realV x, r)) := by
  refine ⟨fun _ => rfl, ?_, fun _ => rfl, fun _ => rfl, fun _ => rfl, ?_, ?_⟩
  · intro x; rw [← write_double_le_reverse, List.reverse_reverse]
  · intro x r fuel h
    have h8 : read_bytes 8 (write_double_le x ++ r) = .ok (write_double_le x, r) :=
      read_bytes_append (write_double_le x) r
    unfold parse_binary parseStep
    norm_num
    rw [h8]
    simp [Functor.map, Except.map, write_double_le_reverse, bits_write_double_be x h]
  · intro x r fuel h
    have h8 : read_bytes 8 (write_double_be x ++ r) = .ok (write_double_be x, r) :=
      read_bytes_append (write_double_be x) r
    unfold parse_binary parseStep
    norm_num
    rw [h8]
    simp [Functor.map, Except.map, bits_write_double_be x h]

/-- C6 witness: the endianness facts at the 15-tick Date (bit pattern
`0x3e501b2b29a4692b` on the wire, low byte first) and at that same pattern
as a Real (high byte first). -/
theorem claim_C6_witness :
    format_binary (.dateV 15)
      = 100 :: write_double_le 0x3e501b2b29a4692b ∧
    parse_binary 5 (100 :: write_double_le 0x3e501b2b29a4692b ++ [])
      = .ok (.dateV 14, []) ∧
    parse_binary 5 (114 :: write_double_be 0x3e501b2b29a4692b ++ [])
      = .ok (.realV 0x3e501b2b29a4692b, []) :=
  ⟨claim_C6_date_endianness.1 15,
   claim_C6_date_endianness.2.2.2.2.2.1 0x3e501b2b29a4692b [] 4 (by decide),
   claim_C6_date_endianness.2.2.2.2.2.2 0x3e501b2b29a4692b [] 4 (by decide)⟩

/-! ## Base64 loop lemmas -/

theorem fromB64Loop_stop (t : List Nat) : ∀ (s : List Nat) (val : Nat) (valb : Int),
    61 ∉ s → fromB64Loop (s ++ 61 :: t) val valb = fromB64Loop s val valb := by
  intro s
  induction s with
  | nil => intro val valb _; simp [fromB64Loop]
  | cons c s' ih =>
    intro val valb h
    have hc : ¬ (c = 61) := fun he => h (by simp [he])
    have hs : 61 ∉ s' := fun hm => h (List.mem_cons_of_mem _ hm)
    rw [List.cons_append, fromB64Loop, fromB64Loop, if_neg hc, if_neg hc]
    cases hb : b64Index c with
    | none => simp only [hb]; exact ih _ _ hs
    | some v =>
      simp only [hb]
      by_cases hv : (0 : Int) ≤ valb + 6
      · rw [if_pos hv, if_pos hv, ih _ _ hs]
      · rw [if_neg hv, if_neg hv, ih _ _ hs]

theorem fromB64Loop_filter : ∀ (s : List Nat) (val : Nat) (valb : Int),
    fromB64Loop s val valb = fromB64Loop (s.filter b64Kept) val valb := by
  intro s
  induction s with
  | nil => intro val valb; rfl
  | cons c s' ih =>
    intro val valb
    by_cases hc : c = 61
    · subst hc
      rw [List.filter_cons_of_pos (by rw [b64Kept]; norm_num),
        fromB64Loop, fromB64Loop, if_pos rfl, if_pos rfl]
    · cases hb : b64Index c with
      | none =>
        rw [List.filter_cons_of_neg (by rw [b64Kept]; simp [hb, hc]),
          fromB64Loop, if_neg hc]
        simp only [hb]
        exact ih _ _
      | some v =>
        rw [List.filter_cons_of_pos (by rw [b64Kept]; simp [hb]),
          fromB64Loop, fromB64Loop, if_neg hc, if_neg hc]
        simp only [hb]
        by_cases hv : (0 : Int) ≤ valb + 6
        · rw [if_pos hv, if_pos hv, ih]
        · rw [if_neg hv, if_neg hv, ih]

theorem fromB64Loop_length : ∀ (s : List Nat) (val : Nat) (valb : Int),
    -8 ≤ valb → valb < 0 →
    (fromB64Loop s val valb).length = ((valb + 8).toNat + 6 * countB64 s) / 8 := by
  intro s
  induction s with
  | nil =>
    intro val valb h1 h2
    rw [fromB64Loop, countB64, List.length_nil]
    omega
  | cons c s' ih =>
    intro val valb h1 h2
    by_cases hc : c = 61
    · subst hc
      rw [fromB64Loop, if_pos rfl, countB64, if_pos rfl, List.length_nil]
      omega
    · rw [fromB64Loop, if_neg hc, countB64, if_neg hc]
      cases hb : b64Index c with
      | none =>
        simp only [hb, Option.isSome_none, Bool.false_eq_true, if_false]
        exact ih _ _ h1 h2
      | some v =>
        simp only [hb, Option.isSome_some, if_true]
        by_cases hv : (0 : Int) ≤ valb + 6
        · rw [if_pos hv, List.length_cons, ih _ _ (by omega) (by omega)]
          omega
        · rw [if_neg hv, ih _ _ (by omega) (by omega)]
          omega

/-- C8: `detail::from_base64` decodes `"AQIDBA=="` to exactly the four bytes
1 2 3 4; padded and unpadded input agree because decoding stops at the first
`=`; non-alphabet bytes before the `=` are skipped (decoding equals decoding
of the filtered string); and the output length is exactly the byte count
implied by the consumed 6-bit groups, `⌊6·k/8⌋`. -/
theorem claim_C8_base64 :
    from_base64 (strBytes "AQIDBA==") = [1, 2, 3, 4] ∧
    from_base64 (strBytes "AQIDBA") = [1, 2, 3, 4] ∧
    from_base64 (strBytes "AQ IDBA==") = [1, 2, 3, 4] ∧
    (∀ s t : List Nat, 61 ∉ s → from_base64 (s ++ 61 :: t) = from_base64 s) ∧
    (∀ s : List Nat, from_base64 s = from_base64 (s.filter b64Kept)) ∧
    (∀ s : List Nat, (from_base64 s).length = 6 * countB64 s / 8) := by
  refine ⟨rfl, rfl, rfl, ?_, ?_, ?_⟩
  · intro s t h; exact fromB64Loop_stop t s 0 (-8) h
  · intro s; exact fromB64Loop_filter s 0 (-8)
  · intro s
    have := fromB64Loop_length s 0 (-8) (by norm_num) (by norm_num)
    simpa [from_base64] using this

/-- C8 witness: the stop-at-`=`, filter and length clauses instantiated on
the concrete padded input. -/
theorem claim_C8_witness :
    from_base64 (strBytes "AQIDBA" ++ 61 :: [61]) = from_base64 (strBytes "AQIDBA") ∧
    from_base64 (strBytes "AQ IDBA==")
      = from_base64 ((strBytes "AQ IDBA==").filter b64Kept) ∧
    (from_base64 (strBytes "AQIDBA==")).length = 6 * countB64 (strBytes "AQIDBA==") / 8 :=
  ⟨claim_C8_base64.2.2.2.1 (strBytes "AQIDBA") [61] (by decide),
   claim_C8_base64.2.2.2.2.1 (strBytes "AQ IDBA=="),
   claim_C8_base64.2.2.2.2.2 (strBytes "AQIDBA==")⟩

/-- C9: the JSON tree emitted for the test suite's composite map (Undefined,
both Booleans, Integer 123, Real 3.14 — bit pattern `0x40091EB851EB851F` —
String "hello", URI, Binary `{1,2,3}`, and a nested Array) is the object with
keys in sorted order, Binary rendered as the padded `data:base64,AQID`
string, URI as its plain text, and Undefined as JSON null; `format_json`
serializes this tree as-is (the dump of the external JSON library iterates
the stored object order). -/
theorem claim_C9_json_output :
    to_json (.mapV (some jsonOutputMap)) = .objJ (
      .cons (strBytes "array")
        (.arrJ (.cons (.intJ 1) (.cons (.strJ (strBytes "two")) .nil)))
      (.cons (strBytes "binary") (.strJ (strBytes "data:base64,AQID"))
      (.cons (strBytes "false") (.boolJ false)
      (.cons (strBytes "integer") (.intJ 123)
      (.cons (strBytes "real") (.numJ 0x40091EB851EB851F)
      (.cons (strBytes "string") (.strJ (strBytes "hello"))
      (.cons (strBytes "true") (.boolJ true)
      (.cons (strBytes "undef") .nullJ
      (.cons (strBytes "uri") (.strJ (strBytes "http://example.com"))
        .nil))))))))) ∧
    keysSorted (objKeys (
      .cons (strBytes "array")
        (.arrJ (.cons (.intJ 1) (.cons (.strJ (strBytes "two")) .nil)))
      (.cons (strBytes "binary") (.strJ (strBytes "data:base64,AQID"))
      (.cons (strBytes "false") (.boolJ false)
      (.cons (strBytes "integer") (.intJ 123)
      (.cons (strBytes "real") (.numJ 0x40091EB851EB851F)
      (.cons (strBytes "string") (.strJ (strBytes "hello"))
      (.cons (strBytes "true") (.boolJ true)
      (.cons (strBytes "undef") .nullJ
      (.cons (strBytes "uri") (.strJ (strBytes "http://example.com"))
        .nil)))))))))) = true :=
  ⟨rfl, by decide⟩

/-- C10: parsing a map wire whose declared count is the entry count of an
arbitrary entry sequence `E` (possibly with repeated keys) builds the map by
folding `(*map)[key] = value` in stream order: lookup of any key returns the
value of its last wire occurrence, the resulting entry count is the number of
distinct keys (never more than the declared count), and the result has no
duplicate entries. -/
theorem claim_C10_dup_keys (E : EList) (r : List Nat) (fuel : Nat)
    (hwf : wfEntries E = true) (hd : datesOkE E = true)
    (hsz : sizeOf E < fuel) (hlen : E.length < 2^31) :
    parse_binary (fuel + 1)
      (123 :: (write_i32_be (E.length : Int) ++ (formatEList E ++ 125 :: r)))
      = .ok (.mapV (some (insertAll .nil E)), r) ∧
    (∀ q, mapFind q (insertAll .nil E) = lastVal q E) ∧
    (insertAll .nil E).length = (keysE E).toFinset.card ∧
    (keysE (insertAll .nil E)).Nodup ∧
    (keysE E).toFinset.card ≤ E.length := by
  refine ⟨?_, ?_, ?_, ?_, ?_⟩
  · unfold parse_binary parseStep
    norm_num
    rw [read_write_i32 (E.length : Int) (by omega) (by exact_mod_cast hlen)]
    simp only [bind, Except.bind, Int.toNat_natCast]
    rw [(parseStep_roundtrip fuel).2.2 E .nil (125 :: r) hwf hd hsz]
    simp [pure, Except.pure]
  · intro q
    rw [mapFind_insertAll q E .nil]
    cases lastVal q E <;> simp [mapFind]
  · rw [insertAll_length E .nil rfl]
    simp [keysE]
  · exact sorted_keys_nodup _ (insertAll_sorted E .nil rfl)
  · exact le_trans (List.toFinset_card_le _) (by rw [keysE_length])

/-- C10 witness: the wire declaring two entries `k ↦ 1, k ↦ 2` parses to the
one-entry map `k ↦ 2` — last occurrence wins, entry count 1 below the
declared count 2. -/
theorem claim_C10_witness :
    parse_binary 1000
      (123 :: (write_i32_be (2 : Int) ++ (formatEList dupEntries ++ 125 :: [])))
      = .ok (.mapV (some (.cons (strBytes "k") (.intV 2) .nil)), []) ∧
    mapFind (strBytes "k") (insertAll .nil dupEntries) = some (.intV 2) ∧
    (insertAll .nil dupEntries).length = (keysE dupEntries).toFinset.card :=
  ⟨(claim_C10_dup_keys dupEntries [] 999 (by decide) (by decide) (by decide)
      (by decide)).1,
   ((claim_C10_dup_keys dupEntries [] 999 (by decide) (by decide) (by decide)
      (by decide)).2.1 (strBytes "k")).trans rfl,
   (claim_C10_dup_keys dupEntries [] 999 (by decide) (by decide) (by decide)
      (by decide)).2.2.1⟩

end LLSDModern
